import Mathlib

/-!
Verification of the Scenario Valuation & Delta/Heat Comparison Engine
(src/src/App.tsx).  Monetary amounts, percentages and thresholds are
modelled as rationals; the JS stable `Array.prototype.sort(cmp)` is
modelled by the stable `List.insertionSort` with the total preorder
induced by the comparator (ECMAScript mandates a stable sort, and every
stable sort with respect to a consistent comparator produces the same
list, so this embedding is extensionally faithful).
-/

namespace VMX

/-- Severity band selector per category (vmx-domain `HeatBand`). -/
inductive HeatBand where
  | LOW
  | MEDIUM
  | HIGH
  deriving DecidableEq, Repr

/-- A per-category selection (vmx-domain `ScenarioSelection`). -/
structure ScenarioSelection where
  categoryId : String
  band : HeatBand
  deriving DecidableEq, Repr

/-- One entry of `ScenarioResult.categories`. -/
structure CategoryResult where
  categoryId : String
  label : String
  cost : ℚ
  pctOfTotal : ℚ
  deriving DecidableEq, Repr

/-- Result of evaluating one scenario (vmx-domain `ScenarioResult`). -/
structure ScenarioResult where
  totalCost : ℚ
  currency : String
  categories : List CategoryResult
  deriving DecidableEq, Repr

/-- App.tsx line 86. -/
inductive DeltaHeat where
  | low
  | medium
  | high
  deriving DecidableEq, Repr

/-- App.tsx line 87. -/
inductive DeltaDirection where
  | increase
  | decrease
  | flat
  deriving DecidableEq, Repr

/-- App.tsx line 88. -/
inductive DeltaSortMode where
  | impact
  | category
  deriving DecidableEq, Repr

/-- App.tsx lines 90-99. -/
structure DeltaRow where
  categoryId : String
  categoryLabel : String
  deltaCost : ℚ
  deltaPct : ℚ
  absFracOfATotal : ℚ
  direction : DeltaDirection
  heat : DeltaHeat
  isTopDriver : Bool
  deriving DecidableEq, Repr

/-- The object returned by the `delta` useMemo (App.tsx lines 435-443). -/
structure DeltaReport where
  totalDelta : ℚ
  rows : List DeltaRow
  increases : List DeltaRow
  decreases : List DeltaRow
  currency : String
  aTotal : ℚ
  bTotal : ℚ
  deriving DecidableEq, Repr

/-- Comparison configuration: thresholds, sort mode, drivers-only filter. -/
structure DeltaConfig where
  mediumThr : ℚ
  highThr : ℚ
  sortMode : DeltaSortMode
  driversOnly : Bool
  deriving DecidableEq, Repr

/-- `const aTotal = resultA.totalCost > 0 ? resultA.totalCost : 1` (App.tsx line 382). -/
def aTotalFloor (resultA : ScenarioResult) : ℚ :=
  if 0 < resultA.totalCost then resultA.totalCost else 1

/-- Initial heat classification from the impact fraction (App.tsx lines 397-399). -/
def classifyHeat (mediumThr highThr absFrac : ℚ) : DeltaHeat :=
  if highThr ≤ absFrac then DeltaHeat.high
  else if mediumThr ≤ absFrac then DeltaHeat.medium
  else DeltaHeat.low

/-- Direction of a delta (App.tsx lines 393-395). -/
def directionOf (deltaCost : ℚ) : DeltaDirection :=
  if 0 < deltaCost then DeltaDirection.increase
  else if deltaCost < 0 then DeltaDirection.decrease
  else DeltaDirection.flat

/-- Construction of one base delta row (App.tsx lines 389-410). -/
def mkDeltaRow (aTotal mediumThr highThr : ℚ) (a b : CategoryResult) : DeltaRow :=
  let deltaCost := b.cost - a.cost
  let absFrac := |deltaCost| / aTotal
  { categoryId := a.categoryId
    categoryLabel := a.label
    deltaCost := deltaCost
    deltaPct := b.pctOfTotal - a.pctOfTotal
    absFracOfATotal := absFrac
    direction := directionOf deltaCost
    heat := classifyHeat mediumThr highThr absFrac
    isTopDriver := false }

/-- `resultB.categories.find((x) => x.categoryId === a.categoryId)` (App.tsx line
386): first entry with the given id, if any. -/
def findCat (id : String) : List CategoryResult → Option CategoryResult
  | [] => none
  | b :: rest => if b.categoryId = id then some b else findCat id rest

/-- `resultA.categories.map(...)` with the lookup in Scenario B and the throw on a
missing category (App.tsx lines 385-411), embedded as `Except`. -/
def buildRows (bCats : List CategoryResult) (aTotal mediumThr highThr : ℚ) :
    List CategoryResult → Except String (List DeltaRow)
  | [] => Except.ok []
  | a :: rest =>
    match findCat a.categoryId bCats with
    | none => Except.error ("Missing category in Scenario B: " ++ a.categoryId)
    | some b =>
      match buildRows bCats aTotal mediumThr highThr rest with
      | Except.error e => Except.error e
      | Except.ok rows => Except.ok (mkDeltaRow aTotal mediumThr highThr a b :: rows)

/-- The comparator `(x, y) => Math.abs(y.deltaCost) - Math.abs(x.deltaCost)`
(App.tsx lines 414 and 424), as the total preorder fed to the stable sort. -/
def absDescR (x y : DeltaRow) : Prop :=
  |y.deltaCost| ≤ |x.deltaCost|

instance : DecidableRel absDescR :=
  fun x y => inferInstanceAs (Decidable (|y.deltaCost| ≤ |x.deltaCost|))

instance : IsTotal DeltaRow absDescR :=
  ⟨fun x y => le_total |y.deltaCost| |x.deltaCost|⟩

instance : IsTrans DeltaRow absDescR :=
  ⟨fun _ _ _ h h' => le_trans h' h⟩

/-- Position of an id in the catalog, if present. -/
def idxOf? (id : String) : List String → Option Nat
  | [] => none
  | c :: rest => if c = id then some 0 else (idxOf? id rest).map (fun i => i + 1)

/-- `order.get(a.categoryId) ?? 999` (App.tsx lines 426-427): position of an id in
the catalog, defaulting to 999. -/
def orderIdx (catalog : List String) (id : String) : Nat :=
  (idxOf? id catalog).getD 999

/-- The category-order comparator (App.tsx line 427). -/
def catOrdR (catalog : List String) (a b : DeltaRow) : Prop :=
  orderIdx catalog a.categoryId ≤ orderIdx catalog b.categoryId

instance (catalog : List String) : DecidableRel (catOrdR catalog) :=
  fun a b =>
    inferInstanceAs (Decidable (orderIdx catalog a.categoryId ≤ orderIdx catalog b.categoryId))

instance (catalog : List String) : IsTotal DeltaRow (catOrdR catalog) :=
  ⟨fun a b => le_total (orderIdx catalog a.categoryId) (orderIdx catalog b.categoryId)⟩

instance (catalog : List String) : IsTrans DeltaRow (catOrdR catalog) :=
  ⟨fun _ _ _ h h' => le_trans h h'⟩

/-- The comparator `(a, b) => b.deltaCost - a.deltaCost` (App.tsx line 432). -/
def deltaDescR (a b : DeltaRow) : Prop :=
  b.deltaCost ≤ a.deltaCost

instance : DecidableRel deltaDescR :=
  fun a b => inferInstanceAs (Decidable (b.deltaCost ≤ a.deltaCost))

instance : IsTotal DeltaRow deltaDescR :=
  ⟨fun a b => le_total b.deltaCost a.deltaCost⟩

instance : IsTrans DeltaRow deltaDescR :=
  ⟨fun _ _ _ h h' => le_trans h' h⟩

/-- The comparator `(a, b) => a.deltaCost - b.deltaCost` (App.tsx line 433). -/
def deltaAscR (a b : DeltaRow) : Prop :=
  a.deltaCost ≤ b.deltaCost

instance : DecidableRel deltaAscR :=
  fun a b => inferInstanceAs (Decidable (a.deltaCost ≤ b.deltaCost))

instance : IsTotal DeltaRow deltaAscR :=
  ⟨fun a b => le_total a.deltaCost b.deltaCost⟩

instance : IsTrans DeltaRow deltaAscR :=
  ⟨fun _ _ _ h h' => le_trans h h'⟩

/-- The driver id set: ids of the top 3 rows by |deltaCost| among rows with
non-zero delta (App.tsx lines 413-415). -/
def topIdsOf (baseRows : List DeltaRow) : List String :=
  ((List.insertionSort absDescR
        (baseRows.filter (fun r => decide (0 < |r.deltaCost|)))).take 3).map
    (fun r => r.categoryId)

/-- Driver marking and the low-to-medium heat upgrade (App.tsx lines 417-421);
`topSet.has(r.categoryId)` is exact string membership. -/
def markRow (topIds : List String) (r : DeltaRow) : DeltaRow :=
  let isTop := decide (r.categoryId ∈ topIds)
  { r with
    isTopDriver := isTop
    heat :=
      if isTop = true ∧ r.heat = DeltaHeat.low ∧ 0 < r.absFracOfATotal then DeltaHeat.medium
      else r.heat }

/-- The presentation sort (App.tsx lines 423-428). -/
def sortRows (catalog : List String) (mode : DeltaSortMode) (rows : List DeltaRow) :
    List DeltaRow :=
  match mode with
  | DeltaSortMode.impact => List.insertionSort absDescR rows
  | DeltaSortMode.category => List.insertionSort (catOrdR catalog) rows

/-- The report assembled from successfully built base rows (App.tsx lines 383,
413-443): driver marking, sorting, the drivers-only filter, and the
increase/decrease summary lists, which the code computes from the already
filtered `rows`. -/
def mkReport (catalog : List String) (cfg : DeltaConfig) (resultA resultB : ScenarioResult)
    (baseRows : List DeltaRow) : DeltaReport :=
  let marked := baseRows.map (markRow (topIdsOf baseRows))
  let sorted := sortRows catalog cfg.sortMode marked
  let rows := if cfg.driversOnly then sorted.filter (fun r => r.isTopDriver) else sorted
  { totalDelta := resultB.totalCost - resultA.totalCost
    rows := rows
    increases :=
      (List.insertionSort deltaDescR (rows.filter (fun r => decide (0 < r.deltaCost)))).take 3
    decreases :=
      (List.insertionSort deltaAscR (rows.filter (fun r => decide (r.deltaCost < 0)))).take 3
    currency := resultA.currency
    aTotal := resultA.totalCost
    bTotal := resultB.totalCost }

/-- The `delta` useMemo computation (App.tsx lines 379-444), for compare mode with
both scenario results present. -/
def deltaCompare (catalog : List String) (cfg : DeltaConfig)
    (resultA resultB : ScenarioResult) : Except String DeltaReport :=
  match buildRows resultB.categories (aTotalFloor resultA) cfg.mediumThr cfg.highThr
      resultA.categories with
  | Except.error e => Except.error e
  | Except.ok baseRows => Except.ok (mkReport catalog cfg resultA resultB baseRows)

/-- The row list of a delta outcome, empty when the comparison raised. -/
def rowsOf (e : Except String DeltaReport) : List DeltaRow :=
  match e with
  | Except.ok rep => rep.rows
  | Except.error _ => []

/-- The `increases` summary list of a delta outcome, empty when the comparison raised. -/
def increasesOf (e : Except String DeltaReport) : List DeltaRow :=
  match e with
  | Except.ok rep => rep.increases
  | Except.error _ => []

/-! ### Generic list lemmas used for stability and ranking arguments -/

theorem sublist_pair_of_mem_of_ne {α : Type*} {l : List α} {a b : α}
    (ha : a ∈ l) (hb : b ∈ l) (hne : a ≠ b) : [a, b].Sublist l ∨ [b, a].Sublist l := by
  induction l with
  | nil => exact absurd ha (List.not_mem_nil a)
  | cons c t ih =>
    rcases List.mem_cons.1 ha with rfl | ha'
    · have hb' : b ∈ t := by
        rcases List.mem_cons.1 hb with rfl | hb'
        · exact absurd rfl hne
        · exact hb'
      exact Or.inl (List.Sublist.cons₂ a (List.singleton_sublist.mpr hb'))
    · rcases List.mem_cons.1 hb with rfl | hb'
      · exact Or.inr (List.Sublist.cons₂ b (List.singleton_sublist.mpr ha'))
      · rcases ih ha' hb' with h | h
        · exact Or.inl (h.cons c)
        · exact Or.inr (h.cons c)

theorem not_pair_sublist_both {α : Type*} {l : List α} {a b : α}
    (hnd : l.Nodup) (hab : List.Sublist [a, b] l) (hba : List.Sublist [b, a] l) (hne : a ≠ b) : False := by
  induction l with
  | nil => cases hab
  | cons c t ih =>
    have hcons := List.nodup_cons.1 hnd
    cases hab with
    | cons _ hab' =>
      cases hba with
      | cons _ hba' => exact ih hcons.2 hab' hba'
      | cons₂ _ hba' =>
        exact hcons.1 (hab'.subset (by simp))
    | cons₂ _ hab' =>
      cases hba with
      | cons _ hba' =>
        exact hcons.1 (hba'.subset (by simp))
      | cons₂ _ hba' =>
        exact hne rfl

/-- Stability of the modelled JS sort: if the input list is strictly increasing in
some index and the sort relation is the preorder induced by a key into a linear
order, then the output is pairwise ordered by the strict lexicographic relation
(key strictly smaller, or keys equal and index smaller). -/
theorem pairwise_key_insertionSort {α : Type*} {β : Type*} [LinearOrder β]
    (key : α → β) (idx : α → ℕ) (r : α → α → Prop) [DecidableRel r]
    (hr : ∀ a b, r a b ↔ key a ≤ key b)
    (l : List α) (hl : l.Pairwise (fun a b => idx a < idx b)) :
    (List.insertionSort r l).Pairwise
      (fun a b => key a < key b ∨ (key a = key b ∧ idx a < idx b)) := by
  haveI : IsTotal α r := ⟨fun a b => by
    rw [hr, hr]
    exact le_total (key a) (key b)⟩
  haveI : IsTrans α r := ⟨fun a b c h h' => by
    rw [hr] at h h' ⊢
    exact le_trans h h'⟩
  have hsorted : (List.insertionSort r l).Pairwise r := List.sorted_insertionSort r l
  have hlnd : l.Nodup := by
    refine hl.imp ?_
    intro a b h heq
    rw [heq] at h
    exact lt_irrefl _ h
  have hnd : (List.insertionSort r l).Nodup := ((List.perm_insertionSort r l).symm).nodup hlnd
  rw [List.pairwise_iff_forall_sublist]
  intro a b hab
  have hle : key a ≤ key b := (hr a b).1 (List.pairwise_iff_forall_sublist.1 hsorted hab)
  rcases lt_or_eq_of_le hle with hlt | heq
  · exact Or.inl hlt
  · refine Or.inr ⟨heq, ?_⟩
    have hne : a ≠ b := by
      intro h
      rw [h] at hab
      exact (List.nodup_iff_sublist.1 hnd b) hab
    have ham : a ∈ l := (List.mem_insertionSort r).1 (hab.subset (by simp))
    have hbm : b ∈ l := (List.mem_insertionSort r).1 (hab.subset (by simp))
    rcases sublist_pair_of_mem_of_ne ham hbm hne with h | h
    · exact List.pairwise_iff_forall_sublist.1 hl h
    · exfalso
      have hba : List.Sublist [b, a] (List.insertionSort r l) := by
        refine List.pair_sublist_insertionSort ?_ h
        rw [hr, heq]
      exact not_pair_sublist_both hnd hab hba hne

/-- In a list pairwise ordered by an asymmetric relation, membership in the first
`k` elements is exactly having fewer than `k` elements that beat you. -/
theorem mem_take_iff_countP {α : Type*} (lt : α → α → Prop) [DecidableRel lt]
    (hasym : ∀ a b, lt a b → ¬lt b a) :
    ∀ (L : List α) (_hpw : L.Pairwise lt) (k : ℕ) (r : α) (_hr : r ∈ L),
      (r ∈ L.take k ↔ L.countP (fun s => decide (lt s r)) < k) := by
  intro L
  induction L with
  | nil =>
    intro _ k r hr
    exact absurd hr (List.not_mem_nil r)
  | cons c t ih =>
    intro hpw k r hr
    have hc : ∀ s ∈ t, lt c s := fun s hs => List.rel_of_pairwise_cons hpw hs
    have hpt : t.Pairwise lt := (List.pairwise_cons.1 hpw).2
    cases k with
    | zero => simp
    | succ k' =>
      rcases List.mem_cons.1 hr with rfl | hr'
      · have hz : t.countP (fun s => decide (lt s r)) = 0 := by
          rw [List.countP_eq_zero]
          intro s hs
          simpa using hasym _ _ (hc s hs)
        have hcc : ¬lt r r := fun h => hasym _ _ h h
        simp [List.countP_cons, hz, hcc]
      · have hrc : r ≠ c := by
          intro h
          rw [h] at hr'
          exact hasym _ _ (hc c hr') (hc c hr')
        have hcr : lt c r := hc r hr'
        have hiht : r ∈ t.take k' ↔ t.countP (fun s => decide (lt s r)) < k' := ih hpt k' r hr'
        have hcount : (c :: t).countP (fun s => decide (lt s r)) =
            t.countP (fun s => decide (lt s r)) + 1 := by
          simp [List.countP_cons, hcr]
        rw [List.take_succ_cons, hcount]
        constructor
        · intro h
          rcases List.mem_cons.1 h with h | h
          · exact absurd h hrc
          · exact Nat.add_lt_add_right (hiht.1 h) 1
        · intro h
          exact List.mem_cons.2 (Or.inr (hiht.2 (Nat.lt_of_add_lt_add_right h)))

/-! ### Structural lemmas about the embedded delta computation -/

theorem findCat_eq_none_iff {id : String} {l : List CategoryResult} :
    findCat id l = none ↔ ∀ b ∈ l, b.categoryId ≠ id := by
  induction l with
  | nil => simp [findCat]
  | cons c t ih =>
    by_cases h : c.categoryId = id
    · simp [findCat, h]
    · simp [findCat, h, ih]

theorem findCat_some {id : String} {l : List CategoryResult} {b : CategoryResult}
    (h : findCat id l = some b) : b ∈ l ∧ b.categoryId = id := by
  induction l with
  | nil => simp [findCat] at h
  | cons c t ih =>
    by_cases hc : c.categoryId = id
    · rw [findCat, if_pos hc] at h
      obtain rfl : c = b := Option.some_injective _ h
      exact ⟨List.mem_cons_self c t, hc⟩
    · rw [findCat, if_neg hc] at h
      obtain ⟨hm, hid⟩ := ih h
      exact ⟨List.mem_cons_of_mem c hm, hid⟩

theorem findCat_of_mem_of_nodup {l : List CategoryResult} {b : CategoryResult}
    (hnd : (l.map (fun x => x.categoryId)).Nodup) (hm : b ∈ l) :
    findCat b.categoryId l = some b := by
  induction l with
  | nil => exact absurd hm (List.not_mem_nil b)
  | cons c t ih =>
    rw [List.map_cons, List.nodup_cons] at hnd
    rcases List.mem_cons.1 hm with rfl | hm'
    · rw [findCat, if_pos rfl]
    · have hne : c.categoryId ≠ b.categoryId := by
        intro h
        exact hnd.1 (h ▸ List.mem_map_of_mem (fun x => x.categoryId) hm')
      rw [findCat, if_neg hne]
      exact ih hnd.2 hm'

theorem buildRows_ok_mem {bCats : List CategoryResult} {aTotal mediumThr highThr : ℚ}
    {l : List CategoryResult} {rows : List DeltaRow} {r : DeltaRow}
    (h : buildRows bCats aTotal mediumThr highThr l = Except.ok rows) (hr : r ∈ rows) :
    ∃ a ∈ l, ∃ b, findCat a.categoryId bCats = some b ∧
      r = mkDeltaRow aTotal mediumThr highThr a b := by
  induction l generalizing rows with
  | nil =>
    rw [buildRows] at h
    obtain rfl : ([] : List DeltaRow) = rows := by simpa using h
    exact absurd hr (List.not_mem_nil r)
  | cons a rest ih =>
    rw [buildRows] at h
    cases hf : findCat a.categoryId bCats with
    | none => rw [hf] at h; cases h
    | some b =>
      rw [hf] at h
      cases hrest : buildRows bCats aTotal mediumThr highThr rest with
      | error e => rw [hrest] at h; cases h
      | ok rows' =>
        rw [hrest] at h
        obtain rfl : mkDeltaRow aTotal mediumThr highThr a b :: rows' = rows := by
          simpa using h
        rcases List.mem_cons.1 hr with rfl | hr'
        · exact ⟨a, List.mem_cons_self a rest, b, hf, rfl⟩
        · obtain ⟨a', ha', b', hb', heq⟩ := ih hrest hr'
          exact ⟨a', List.mem_cons_of_mem a ha', b', hb', heq⟩

theorem buildRows_ok_map_id {bCats : List CategoryResult} {aTotal mediumThr highThr : ℚ}
    {l : List CategoryResult} {rows : List DeltaRow}
    (h : buildRows bCats aTotal mediumThr highThr l = Except.ok rows) :
    rows.map (fun r => r.categoryId) = l.map (fun a => a.categoryId) := by
  induction l generalizing rows with
  | nil =>
    rw [buildRows] at h
    obtain rfl : ([] : List DeltaRow) = rows := by simpa using h
    simp
  | cons a rest ih =>
    rw [buildRows] at h
    cases hf : findCat a.categoryId bCats with
    | none => rw [hf] at h; cases h
    | some b =>
      rw [hf] at h
      cases hrest : buildRows bCats aTotal mediumThr highThr rest with
      | error e => rw [hrest] at h; cases h
      | ok rows' =>
        rw [hrest] at h
        obtain rfl : mkDeltaRow aTotal mediumThr highThr a b :: rows' = rows := by
          simpa using h
        simp [mkDeltaRow, ih hrest]

theorem buildRows_error_of_missing {bCats : List CategoryResult}
    {aTotal mediumThr highThr : ℚ} {l : List CategoryResult} {a : CategoryResult}
    (ha : a ∈ l) (hmiss : findCat a.categoryId bCats = none) :
    ∃ c, buildRows bCats aTotal mediumThr highThr l =
        Except.error ("Missing category in Scenario B: " ++ c) ∧
      (∃ a' ∈ l, a'.categoryId = c) ∧ findCat c bCats = none := by
  induction l with
  | nil => exact absurd ha (List.not_mem_nil a)
  | cons x rest ih =>
    cases hf : findCat x.categoryId bCats with
    | none =>
      refine ⟨x.categoryId, ?_, ⟨x, List.mem_cons_self x rest, rfl⟩, hf⟩
      rw [buildRows, hf]
    | some b =>
      have ha' : a ∈ rest := by
        rcases List.mem_cons.1 ha with rfl | h
        · rw [hf] at hmiss; cases hmiss
        · exact h
      obtain ⟨c, herr, hc, hcn⟩ := ih ha'
      refine ⟨c, ?_, ?_, hcn⟩
      · rw [buildRows, hf, herr]
      · obtain ⟨a', ha'', hid⟩ := hc
        exact ⟨a', List.mem_cons_of_mem x ha'', hid⟩

theorem markRow_categoryId (topIds : List String) (r : DeltaRow) :
    (markRow topIds r).categoryId = r.categoryId := rfl

theorem markRow_deltaCost (topIds : List String) (r : DeltaRow) :
    (markRow topIds r).deltaCost = r.deltaCost := rfl

theorem markRow_deltaPct (topIds : List String) (r : DeltaRow) :
    (markRow topIds r).deltaPct = r.deltaPct := rfl

theorem markRow_absFrac (topIds : List String) (r : DeltaRow) :
    (markRow topIds r).absFracOfATotal = r.absFracOfATotal := rfl

theorem markRow_isTopDriver (topIds : List String) (r : DeltaRow) :
    (markRow topIds r).isTopDriver = decide (r.categoryId ∈ topIds) := rfl

theorem markRow_heat (topIds : List String) (r : DeltaRow) :
    (markRow topIds r).heat =
      if decide (r.categoryId ∈ topIds) = true ∧ r.heat = DeltaHeat.low ∧
          0 < r.absFracOfATotal then DeltaHeat.medium
      else r.heat := rfl

theorem sortRows_perm (catalog : List String) (mode : DeltaSortMode)
    (rows : List DeltaRow) : (sortRows catalog mode rows).Perm rows := by
  cases mode with
  | impact => exact List.perm_insertionSort absDescR rows
  | category => exact List.perm_insertionSort (catOrdR catalog) rows

theorem mkReport_rows_subset {catalog : List String} {cfg : DeltaConfig}
    {resultA resultB : ScenarioResult} {baseRows : List DeltaRow} {r : DeltaRow}
    (hr : r ∈ (mkReport catalog cfg resultA resultB baseRows).rows) :
    ∃ rb ∈ baseRows, r = markRow (topIdsOf baseRows) rb := by
  have hr' : r ∈ sortRows catalog cfg.sortMode (baseRows.map (markRow (topIdsOf baseRows))) := by
    by_cases hd : cfg.driversOnly
    · simp only [mkReport, hd, if_true] at hr
      exact List.mem_of_mem_filter hr
    · simpa only [mkReport, hd, if_false] using hr
  have hr'' : r ∈ baseRows.map (markRow (topIdsOf baseRows)) :=
    ((sortRows_perm catalog cfg.sortMode _).mem_iff).1 hr'
  obtain ⟨rb, hrb, heq⟩ := List.mem_map.1 hr''
  exact ⟨rb, hrb, heq.symm⟩

theorem deltaCompare_ok_inv {catalog : List String} {cfg : DeltaConfig}
    {resultA resultB : ScenarioResult} {rep : DeltaReport}
    (h : deltaCompare catalog cfg resultA resultB = Except.ok rep) :
    ∃ baseRows, buildRows resultB.categories (aTotalFloor resultA) cfg.mediumThr cfg.highThr
        resultA.categories = Except.ok baseRows ∧
      rep = mkReport catalog cfg resultA resultB baseRows := by
  rw [deltaCompare] at h
  cases hb : buildRows resultB.categories (aTotalFloor resultA) cfg.mediumThr cfg.highThr
      resultA.categories with
  | error e => rw [hb] at h; cases h
  | ok baseRows =>
    rw [hb] at h
    exact ⟨baseRows, rfl, (by simpa using h.symm)⟩

/-- Origin of every report row: it is a marked base row built from a category of
`resultA` and its counterpart in `resultB`. -/
theorem mem_rows_origin {catalog : List String} {cfg : DeltaConfig}
    {resultA resultB : ScenarioResult} {rep : DeltaReport} {base : List DeltaRow} {r : DeltaRow}
    (hok : deltaCompare catalog cfg resultA resultB = Except.ok rep)
    (hbase : buildRows resultB.categories (aTotalFloor resultA) cfg.mediumThr cfg.highThr
      resultA.categories = Except.ok base)
    (hr : r ∈ rep.rows) :
    ∃ a ∈ resultA.categories, ∃ b, findCat a.categoryId resultB.categories = some b ∧
      r = markRow (topIdsOf base)
        (mkDeltaRow (aTotalFloor resultA) cfg.mediumThr cfg.highThr a b) := by
  obtain ⟨base', hb', hrep⟩ := deltaCompare_ok_inv hok
  have hbb : base' = base := by
    rw [hb'] at hbase
    exact Except.ok.inj hbase
  subst hbb
  subst hrep
  obtain ⟨rb, hrb, heq⟩ := mkReport_rows_subset hr
  obtain ⟨a, ha, b, hb, hmk⟩ := buildRows_ok_mem hb' hrb
  exact ⟨a, ha, b, hb, by rw [heq, hmk]⟩

/-- Weaker origin lemma that hides the driver id set. -/
theorem mem_rows_origin' {catalog : List String} {cfg : DeltaConfig}
    {resultA resultB : ScenarioResult} {rep : DeltaReport} {r : DeltaRow}
    (hok : deltaCompare catalog cfg resultA resultB = Except.ok rep)
    (hr : r ∈ rep.rows) :
    ∃ a ∈ resultA.categories, ∃ b, findCat a.categoryId resultB.categories = some b ∧
      ∃ topIds, r = markRow topIds
        (mkDeltaRow (aTotalFloor resultA) cfg.mediumThr cfg.highThr a b) := by
  obtain ⟨base, hb, hrep⟩ := deltaCompare_ok_inv hok
  obtain ⟨a, ha, b, hfb, hmk⟩ := mem_rows_origin hok hb hr
  exact ⟨a, ha, b, hfb, topIdsOf base, hmk⟩

/-! ### Catalog positions and the ranking relation -/

theorem idxOf?_getElem :
    ∀ (l : List String), l.Nodup → ∀ (i : ℕ) (h : i < l.length), idxOf? l[i] l = some i := by
  intro l
  induction l with
  | nil =>
    intro _ i h
    exact absurd h (by simp)
  | cons c t ih =>
    intro hnd i h
    cases i with
    | zero => simp [idxOf?]
    | succ i' =>
      have h' : i' < t.length := Nat.lt_of_succ_lt_succ h
      have hne : c ≠ t[i'] := by
        intro hc
        exact (List.nodup_cons.1 hnd).1 (hc ▸ List.getElem_mem h')
      have : (c :: t)[i' + 1] = t[i'] := by simp
      rw [this, idxOf?, if_neg hne, ih (List.nodup_cons.1 hnd).2 i' h']
      rfl

theorem pairwise_orderIdx_of_nodup (catalog : List String) (hnd : catalog.Nodup) :
    catalog.Pairwise (fun c d => orderIdx catalog c < orderIdx catalog d) := by
  rw [List.pairwise_iff_getElem]
  intro i j hi hj hij
  rw [orderIdx, orderIdx, idxOf?_getElem catalog hnd i hi, idxOf?_getElem catalog hnd j hj]
  exact hij

/-- If the ids of a list enumerate the catalog in order, the list is strictly
increasing in catalog position. -/
theorem pairwise_orderIdx_map {α : Type*} {f : α → String} {l : List α}
    {catalog : List String} (hids : l.map f = catalog) (hnd : catalog.Nodup) :
    l.Pairwise (fun a b => orderIdx catalog (f a) < orderIdx catalog (f b)) := by
  subst hids
  exact (List.pairwise_map (f := f)
    (R := fun c d => orderIdx (l.map f) c < orderIdx (l.map f) d)).1
    (pairwise_orderIdx_of_nodup (l.map f) hnd)

/-- The spec's ranking relation for driver selection: strictly larger absolute
delta, or equal absolute delta and earlier catalog position. -/
def beats (catalog : List String) (r s : DeltaRow) : Prop :=
  |s.deltaCost| < |r.deltaCost| ∨
    (|r.deltaCost| = |s.deltaCost| ∧
      orderIdx catalog r.categoryId < orderIdx catalog s.categoryId)

instance (catalog : List String) : DecidableRel (beats catalog) :=
  fun r s =>
    inferInstanceAs (Decidable (|s.deltaCost| < |r.deltaCost| ∨
      (|r.deltaCost| = |s.deltaCost| ∧
        orderIdx catalog r.categoryId < orderIdx catalog s.categoryId)))

theorem beats_asymm (catalog : List String) (a b : DeltaRow) :
    beats catalog a b → ¬beats catalog b a := by
  intro h h'
  rcases h with h | ⟨he, hi⟩ <;> rcases h' with h' | ⟨he', hi'⟩
  · exact lt_asymm h h'
  · rw [he'] at h
    exact lt_irrefl _ h
  · rw [he] at h'
    exact lt_irrefl _ h'
  · exact Nat.lt_asymm hi hi'

/-- Stability of the modelled `byAbs`/impact sort: on a list strictly increasing
in catalog position, sorting by descending absolute delta yields a list pairwise
ordered by `beats`. -/
theorem pairwise_beats_insertionSort {catalog : List String} {l : List DeltaRow}
    (hl : l.Pairwise (fun a b =>
      orderIdx catalog a.categoryId < orderIdx catalog b.categoryId)) :
    (List.insertionSort absDescR l).Pairwise (beats catalog) := by
  have h := pairwise_key_insertionSort (fun r : DeltaRow => OrderDual.toDual |r.deltaCost|)
      (fun r => orderIdx catalog r.categoryId) absDescR
      (fun a b => by
        rw [OrderDual.toDual_le_toDual]
        exact Iff.rfl) l hl
  refine h.imp ?_
  intro a b hab
  rcases hab with hlt | ⟨heq, hidx⟩
  · exact Or.inl (OrderDual.toDual_lt_toDual.1 hlt)
  · exact Or.inr ⟨OrderDual.toDual_inj.1 heq, hidx⟩

theorem mkDeltaRow_categoryId (t m h : ℚ) (a b : CategoryResult) :
    (mkDeltaRow t m h a b).categoryId = a.categoryId := rfl

theorem mkDeltaRow_deltaCost (t m h : ℚ) (a b : CategoryResult) :
    (mkDeltaRow t m h a b).deltaCost = b.cost - a.cost := rfl

theorem mkDeltaRow_deltaPct (t m h : ℚ) (a b : CategoryResult) :
    (mkDeltaRow t m h a b).deltaPct = b.pctOfTotal - a.pctOfTotal := rfl

theorem mkDeltaRow_absFrac (t m h : ℚ) (a b : CategoryResult) :
    (mkDeltaRow t m h a b).absFracOfATotal = |b.cost - a.cost| / t := rfl

theorem mkDeltaRow_heat (t m h : ℚ) (a b : CategoryResult) :
    (mkDeltaRow t m h a b).heat = classifyHeat m h (|b.cost - a.cost| / t) := rfl

theorem mkReport_totalDelta (catalog : List String) (cfg : DeltaConfig)
    (resultA resultB : ScenarioResult) (baseRows : List DeltaRow) :
    (mkReport catalog cfg resultA resultB baseRows).totalDelta =
      resultB.totalCost - resultA.totalCost := rfl

/-- Numeric severity of a heat level, for monotonicity statements. -/
def heatRank : DeltaHeat → ℕ
  | DeltaHeat.low => 0
  | DeltaHeat.medium => 1
  | DeltaHeat.high => 2

theorem nodup_subset_length {l₁ l₂ : List String} (hnd : l₁.Nodup) (hsub : l₁ ⊆ l₂) :
    l₁.length ≤ l₂.length := by
  calc l₁.length = l₁.toFinset.card := (List.toFinset_card_of_nodup hnd).symm
    _ ≤ l₂.toFinset.card :=
      Finset.card_le_card (fun x hx => List.mem_toFinset.2 (hsub (List.mem_toFinset.1 hx)))
    _ ≤ l₂.length := List.toFinset_card_le l₂

theorem topIdsOf_length_le (baseRows : List DeltaRow) : (topIdsOf baseRows).length ≤ 3 := by
  rw [topIdsOf, List.length_map, List.length_take]
  exact min_le_left 3 _

/-- Characterisation of the driver id set: a base row's id is in `topIdsOf` iff
its delta is non-zero and fewer than 3 non-zero base rows beat it in the
(absolute delta, catalog position) ranking. -/
theorem topIds_mem_iff {catalog : List String} {base : List DeltaRow} {rb : DeltaRow}
    (hbids : base.map (fun r => r.categoryId) = catalog) (hnd : catalog.Nodup)
    (hrb : rb ∈ base) :
    rb.categoryId ∈ topIdsOf base ↔
      rb.deltaCost ≠ 0 ∧
        (base.filter (fun s => decide (s.deltaCost ≠ 0))).countP
          (fun s => decide (beats catalog s rb)) < 3 := by
  have hpw : base.Pairwise (fun a b =>
      orderIdx catalog a.categoryId < orderIdx catalog b.categoryId) :=
    pairwise_orderIdx_map hbids hnd
  have hbnd : (base.map (fun r => r.categoryId)).Nodup := by rw [hbids]; exact hnd
  have hfilter_eq : base.filter (fun s => decide (s.deltaCost ≠ 0)) =
      base.filter (fun r => decide (0 < |r.deltaCost|)) := by
    refine List.filter_congr ?_
    intro x _
    rw [decide_eq_decide]
    exact abs_pos.symm
  have hel_pw : (base.filter (fun r => decide (0 < |r.deltaCost|))).Pairwise (fun a b =>
      orderIdx catalog a.categoryId < orderIdx catalog b.categoryId) :=
    hpw.filter _
  have hsort_pw : (List.insertionSort absDescR
      (base.filter (fun r => decide (0 < |r.deltaCost|)))).Pairwise (beats catalog) :=
    pairwise_beats_insertionSort hel_pw
  have hperm := List.perm_insertionSort absDescR (base.filter (fun r => decide (0 < |r.deltaCost|)))
  constructor
  · intro hmem
    rw [topIdsOf] at hmem
    obtain ⟨s, hs, hsid⟩ := List.mem_map.1 hmem
    have hs_sorted : s ∈ List.insertionSort absDescR
        (base.filter (fun r => decide (0 < |r.deltaCost|))) := List.take_subset 3 _ hs
    have hs_el : s ∈ base.filter (fun r => decide (0 < |r.deltaCost|)) :=
      hperm.mem_iff.1 hs_sorted
    have hs_base : s ∈ base := List.mem_of_mem_filter hs_el
    have hseq : s = rb := List.inj_on_of_nodup_map hbnd hs_base hrb hsid
    subst hseq
    refine ⟨?_, ?_⟩
    · have hpos := (List.mem_filter.1 hs_el).2
      rw [decide_eq_true_eq] at hpos
      exact abs_pos.1 hpos
    · have hiff := mem_take_iff_countP (beats catalog) (beats_asymm catalog) _ hsort_pw 3 s
        hs_sorted
      have hcount := hiff.1 hs
      rw [hfilter_eq, ← hperm.countP_eq]
      exact hcount
  · rintro ⟨hne, hcount⟩
    have hrb_el : rb ∈ base.filter (fun r => decide (0 < |r.deltaCost|)) :=
      List.mem_filter.2 ⟨hrb, by rw [decide_eq_true_eq]; exact abs_pos.2 hne⟩
    have hrb_sorted : rb ∈ List.insertionSort absDescR
        (base.filter (fun r => decide (0 < |r.deltaCost|))) := hperm.mem_iff.2 hrb_el
    have hiff := mem_take_iff_countP (beats catalog) (beats_asymm catalog) _ hsort_pw 3 rb
      hrb_sorted
    have htake : rb ∈ (List.insertionSort absDescR
        (base.filter (fun r => decide (0 < |r.deltaCost|)))).take 3 := by
      refine hiff.2 ?_
      rw [hfilter_eq, ← hperm.countP_eq] at hcount
      exact hcount
    rw [topIdsOf]
    exact List.mem_map.2 ⟨rb, htake, rfl⟩

theorem mkReport_rows (catalog : List String) (cfg : DeltaConfig)
    (resultA resultB : ScenarioResult) (baseRows : List DeltaRow) :
    (mkReport catalog cfg resultA resultB baseRows).rows =
      (if cfg.driversOnly then
        (sortRows catalog cfg.sortMode
          (baseRows.map (markRow (topIdsOf baseRows)))).filter (fun r => r.isTopDriver)
      else sortRows catalog cfg.sortMode (baseRows.map (markRow (topIdsOf baseRows)))) := rfl

theorem mkReport_increases (catalog : List String) (cfg : DeltaConfig)
    (resultA resultB : ScenarioResult) (baseRows : List DeltaRow) :
    (mkReport catalog cfg resultA resultB baseRows).increases =
      (List.insertionSort deltaDescR
        ((mkReport catalog cfg resultA resultB baseRows).rows.filter
          (fun r => decide (0 < r.deltaCost)))).take 3 := rfl

theorem mkReport_decreases (catalog : List String) (cfg : DeltaConfig)
    (resultA resultB : ScenarioResult) (baseRows : List DeltaRow) :
    (mkReport catalog cfg resultA resultB baseRows).decreases =
      (List.insertionSort deltaAscR
        ((mkReport catalog cfg resultA resultB baseRows).rows.filter
          (fun r => decide (r.deltaCost < 0)))).take 3 := rfl

/-! ### Claim theorems for the delta comparison -/

/-- Claim C4: a report row is marked as a top driver exactly when its delta is
non-zero and fewer than 3 non-zero base rows beat it in the (absolute delta
descending, catalog position ascending) ranking; consequently at most 3 rows are
drivers and no zero-delta row ever is. -/
theorem driver_selection {catalog : List String} {cfg : DeltaConfig}
    {resultA resultB : ScenarioResult} {rep : DeltaReport} {base : List DeltaRow}
    (hok : deltaCompare catalog cfg resultA resultB = Except.ok rep)
    (hbase : buildRows resultB.categories (aTotalFloor resultA) cfg.mediumThr cfg.highThr
      resultA.categories = Except.ok base)
    (hids : resultA.categories.map (fun a => a.categoryId) = catalog)
    (hnd : catalog.Nodup) :
    (rep.rows.filter (fun r => r.isTopDriver)).length ≤ 3 ∧
    (∀ r ∈ rep.rows, r.deltaCost = 0 → r.isTopDriver = false) ∧
    (∀ r ∈ rep.rows, (r.isTopDriver = true ↔ r.deltaCost ≠ 0 ∧
        (base.filter (fun s => decide (s.deltaCost ≠ 0))).countP
          (fun s => decide (beats catalog s r)) < 3)) := by
  have hbids : base.map (fun r => r.categoryId) = catalog :=
    (buildRows_ok_map_id hbase).trans hids
  have hbnd : (base.map (fun r => r.categoryId)).Nodup := by rw [hbids]; exact hnd
  obtain ⟨base', hb', hrep⟩ := deltaCompare_ok_inv hok
  have hbb : base' = base := by
    rw [hb'] at hbase
    exact Except.ok.inj hbase
  rw [hbb] at hrep
  subst hrep
  have hchar : ∀ r ∈ (mkReport catalog cfg resultA resultB base).rows,
      (r.isTopDriver = true ↔ r.deltaCost ≠ 0 ∧
        (base.filter (fun s => decide (s.deltaCost ≠ 0))).countP
          (fun s => decide (beats catalog s r)) < 3) := by
    intro r hr
    obtain ⟨rb, hrb, rfl⟩ := mkReport_rows_subset hr
    rw [markRow_isTopDriver, decide_eq_true_eq]
    exact topIds_mem_iff hbids hnd hrb
  have hbound : ((sortRows catalog cfg.sortMode
      (base.map (markRow (topIdsOf base)))).filter (fun r => r.isTopDriver)).length ≤ 3 := by
    rw [← List.countP_eq_length_filter]
    rw [(sortRows_perm catalog cfg.sortMode (base.map (markRow (topIdsOf base)))).countP_eq]
    rw [List.countP_map]
    have hp : ((fun r : DeltaRow => r.isTopDriver) ∘ markRow (topIdsOf base)) =
        fun rb : DeltaRow => decide (rb.categoryId ∈ topIdsOf base) := rfl
    rw [hp, List.countP_eq_length_filter]
    have hlen : (base.filter (fun rb => decide (rb.categoryId ∈ topIdsOf base))).length =
        ((base.filter (fun rb => decide (rb.categoryId ∈ topIdsOf base))).map
          (fun r => r.categoryId)).length := (List.length_map _ _).symm
    rw [hlen]
    refine le_trans (nodup_subset_length ?_ ?_) (topIdsOf_length_le base)
    · exact hbnd.sublist (List.Sublist.map _ (List.filter_sublist base))
    · intro x hx
      obtain ⟨rb, hrb, rfl⟩ := List.mem_map.1 hx
      have := (List.mem_filter.1 hrb).2
      rw [decide_eq_true_eq] at this
      exact this
  refine ⟨?_, ?_, hchar⟩
  · by_cases hd : cfg.driversOnly
    · rw [mkReport_rows, if_pos hd]
      have hff : (((sortRows catalog cfg.sortMode
          (base.map (markRow (topIdsOf base)))).filter (fun r => r.isTopDriver)).filter
            (fun r => r.isTopDriver)) =
          (sortRows catalog cfg.sortMode
            (base.map (markRow (topIdsOf base)))).filter (fun r => r.isTopDriver) := by
        rw [List.filter_filter]
        refine List.filter_congr ?_
        intro x _
        rw [Bool.and_self]
      rw [hff]
      exact hbound
    · rw [mkReport_rows, if_neg hd]
      exact hbound
  · intro r hr h0
    cases hb : r.isTopDriver with
    | false => rfl
    | true => exact absurd h0 ((hchar r hr).1 hb).1

/-- Claim C6: under impact sorting the report rows are pairwise ordered by
strictly decreasing absolute delta with ties broken by catalog position; under
category sorting they stay in strictly increasing catalog position, and with no
drivers-only filtering they enumerate the catalog exactly. -/
theorem sort_mode_ordering {catalog : List String} {cfg : DeltaConfig}
    {resultA resultB : ScenarioResult} {rep : DeltaReport}
    (hok : deltaCompare catalog cfg resultA resultB = Except.ok rep)
    (hids : resultA.categories.map (fun a => a.categoryId) = catalog)
    (hnd : catalog.Nodup) :
    (cfg.sortMode = DeltaSortMode.impact → rep.rows.Pairwise (beats catalog)) ∧
    (cfg.sortMode = DeltaSortMode.category →
      rep.rows.Pairwise (fun a b =>
        orderIdx catalog a.categoryId < orderIdx catalog b.categoryId) ∧
      (cfg.driversOnly = false →
        rep.rows.map (fun r => r.categoryId) = catalog)) := by
  obtain ⟨base, hb, hrep⟩ := deltaCompare_ok_inv hok
  subst hrep
  have hbids : base.map (fun r => r.categoryId) = catalog :=
    (buildRows_ok_map_id hb).trans hids
  have hmids : (base.map (markRow (topIdsOf base))).map (fun r => r.categoryId) = catalog := by
    rw [List.map_map]
    exact hbids
  have hmpw : (base.map (markRow (topIdsOf base))).Pairwise (fun a b =>
      orderIdx catalog a.categoryId < orderIdx catalog b.categoryId) :=
    pairwise_orderIdx_map hmids hnd
  constructor
  · intro hmode
    have hpw : (sortRows catalog cfg.sortMode
        (base.map (markRow (topIdsOf base)))).Pairwise (beats catalog) := by
      rw [hmode, sortRows]
      exact pairwise_beats_insertionSort hmpw
    rw [mkReport_rows]
    by_cases hd : cfg.driversOnly
    · rw [if_pos hd]
      exact List.Pairwise.sublist (List.filter_sublist _) hpw
    · rw [if_neg hd]
      exact hpw
  · intro hmode
    have hsorted : sortRows catalog cfg.sortMode (base.map (markRow (topIdsOf base))) =
        base.map (markRow (topIdsOf base)) := by
      rw [hmode, sortRows]
      refine List.Sorted.insertionSort_eq ?_
      exact hmpw.imp (fun h => le_of_lt h)
    constructor
    · rw [mkReport_rows, hsorted]
      by_cases hd : cfg.driversOnly
      · rw [if_pos hd]
        exact List.Pairwise.sublist (List.filter_sublist _) hmpw
      · rw [if_neg hd]
        exact hmpw
    · intro hdrv
      rw [mkReport_rows, hsorted, hdrv, if_neg (by simp)]
      exact hmids

/-- Specification of a `take 3` of a stable sort of a filtered list: its members
come from the list and satisfy the filter, there are at most 3 of them, they are
sorted, and any filtered-in element left out is dominated by 3 listed ones. -/
theorem take3_sorted_spec {p : DeltaRow → Bool} (r : DeltaRow → DeltaRow → Prop)
    [DecidableRel r] [IsTotal DeltaRow r] [IsTrans DeltaRow r] (l : List DeltaRow) :
    (∀ x ∈ (List.insertionSort r (l.filter p)).take 3, x ∈ l ∧ p x = true) ∧
    ((List.insertionSort r (l.filter p)).take 3).length ≤ 3 ∧
    ((List.insertionSort r (l.filter p)).take 3).Pairwise r ∧
    (∀ x ∈ l, p x = true → x ∉ (List.insertionSort r (l.filter p)).take 3 →
      ((List.insertionSort r (l.filter p)).take 3).length = 3 ∧
      ∀ s ∈ (List.insertionSort r (l.filter p)).take 3, r s x) := by
  have hperm := List.perm_insertionSort r (l.filter p)
  have hsorted : (List.insertionSort r (l.filter p)).Pairwise r :=
    List.sorted_insertionSort r (l.filter p)
  refine ⟨?_, ?_, ?_, ?_⟩
  · intro x hx
    have hx' : x ∈ l.filter p := hperm.mem_iff.1 (List.take_subset 3 _ hx)
    exact ⟨List.mem_of_mem_filter hx', (List.mem_filter.1 hx').2⟩
  · rw [List.length_take]
    exact min_le_left 3 _
  · exact List.Pairwise.sublist (List.take_sublist 3 _) hsorted
  · intro x hx hpx hnotin
    have hx' : x ∈ List.insertionSort r (l.filter p) :=
      hperm.mem_iff.2 (List.mem_filter.2 ⟨hx, hpx⟩)
    have hsplit := List.take_append_drop 3 (List.insertionSort r (l.filter p))
    have hxdrop : x ∈ (List.insertionSort r (l.filter p)).drop 3 := by
      rcases List.mem_append.1 (by rw [hsplit]; exact hx') with h | h
      · exact absurd h hnotin
      · exact h
    have hlen : 3 < (List.insertionSort r (l.filter p)).length := by
      by_contra hle
      rw [List.drop_eq_nil_iff.2 (le_of_not_lt hle)] at hxdrop
      exact List.not_mem_nil x hxdrop
    refine ⟨?_, ?_⟩
    · rw [List.length_take]
      exact min_eq_left (le_of_lt hlen)
    · intro s hs
      have hpairs : List.Pairwise r ((List.insertionSort r (l.filter p)).take 3 ++
          (List.insertionSort r (l.filter p)).drop 3) := by
        rw [hsplit]
        exact hsorted
      exact (List.pairwise_append.1 hpairs).2.2 s hs x hxdrop

/-- Claim C1, amended: the two summary lists are computed from the report's
(post-driversOnly-filter) row list: `increases` holds at most 3 rows of
`rep.rows` with positive delta, sorted by descending delta, and maximal among
the positive rows of `rep.rows`; `decreases` is the mirror image for negative
deltas. -/
theorem summary_lists {catalog : List String} {cfg : DeltaConfig}
    {resultA resultB : ScenarioResult} {rep : DeltaReport}
    (hok : deltaCompare catalog cfg resultA resultB = Except.ok rep) :
    (∀ x ∈ rep.increases, x ∈ rep.rows ∧ 0 < x.deltaCost) ∧
    rep.increases.length ≤ 3 ∧
    rep.increases.Pairwise deltaDescR ∧
    (∀ x ∈ rep.rows, 0 < x.deltaCost → x ∉ rep.increases →
      rep.increases.length = 3 ∧ ∀ s ∈ rep.increases, x.deltaCost ≤ s.deltaCost) ∧
    (∀ x ∈ rep.decreases, x ∈ rep.rows ∧ x.deltaCost < 0) ∧
    rep.decreases.length ≤ 3 ∧
    rep.decreases.Pairwise deltaAscR ∧
    (∀ x ∈ rep.rows, x.deltaCost < 0 → x ∉ rep.decreases →
      rep.decreases.length = 3 ∧ ∀ s ∈ rep.decreases, s.deltaCost ≤ x.deltaCost) := by
  obtain ⟨base, hb, hrep⟩ := deltaCompare_ok_inv hok
  subst hrep
  have hinc := take3_sorted_spec (p := fun x => decide (0 < x.deltaCost)) deltaDescR
    (mkReport catalog cfg resultA resultB base).rows
  have hdec := take3_sorted_spec (p := fun x => decide (x.deltaCost < 0)) deltaAscR
    (mkReport catalog cfg resultA resultB base).rows
  rw [← mkReport_increases] at hinc
  rw [← mkReport_decreases] at hdec
  refine ⟨?_, hinc.2.1, hinc.2.2.1, ?_, ?_, hdec.2.1, hdec.2.2.1, ?_⟩
  · intro x hx
    obtain ⟨hmem, hp⟩ := hinc.1 x hx
    rw [decide_eq_true_eq] at hp
    exact ⟨hmem, hp⟩
  · intro x hx hpos hnot
    obtain ⟨hlen, hdom⟩ := hinc.2.2.2 x hx (by rw [decide_eq_true_eq]; exact hpos) hnot
    exact ⟨hlen, fun s hs => hdom s hs⟩
  · intro x hx
    obtain ⟨hmem, hp⟩ := hdec.1 x hx
    rw [decide_eq_true_eq] at hp
    exact ⟨hmem, hp⟩
  · intro x hx hneg hnot
    obtain ⟨hlen, hdom⟩ := hdec.2.2.2 x hx (by rw [decide_eq_true_eq]; exact hneg) hnot
    exact ⟨hlen, fun s hs => hdom s hs⟩

/-- Claim C2, amended: every report row's impact fraction is `|deltaCost|`
divided by `resultA.totalCost` when that total is positive, and divided by `1`
otherwise.  (The code floors the divisor at 1 only when the total is not
positive, not whenever it is below 1 as the claim states.) -/
theorem impactFraction_floor {catalog : List String} {cfg : DeltaConfig}
    {resultA resultB : ScenarioResult} {rep : DeltaReport} {r : DeltaRow}
    (hok : deltaCompare catalog cfg resultA resultB = Except.ok rep)
    (hr : r ∈ rep.rows) :
    r.absFracOfATotal =
      |r.deltaCost| / (if 0 < resultA.totalCost then resultA.totalCost else 1) := by
  obtain ⟨a, ha, b, hb, topIds, rfl⟩ := mem_rows_origin' hok hr
  simp [markRow_absFrac, markRow_deltaCost, mkDeltaRow_absFrac, mkDeltaRow_deltaCost,
    aTotalFloor]

/-- Claim C3: for a non-driver row the final heat is exactly the threshold
classification of its impact fraction. -/
theorem heat_thresholds_of_not_driver {catalog : List String} {cfg : DeltaConfig}
    {resultA resultB : ScenarioResult} {rep : DeltaReport} {r : DeltaRow}
    (hmed : 0 ≤ cfg.mediumThr) (hthr : cfg.mediumThr ≤ cfg.highThr)
    (hok : deltaCompare catalog cfg resultA resultB = Except.ok rep)
    (hr : r ∈ rep.rows) (hdrv : r.isTopDriver = false) :
    (r.heat = DeltaHeat.high ↔ cfg.highThr ≤ r.absFracOfATotal) ∧
    (r.heat = DeltaHeat.medium ↔
      cfg.mediumThr ≤ r.absFracOfATotal ∧ r.absFracOfATotal < cfg.highThr) ∧
    (r.heat = DeltaHeat.low ↔ r.absFracOfATotal < cfg.mediumThr) := by
  obtain ⟨a, ha, b, hb, topIds, rfl⟩ := mem_rows_origin' hok hr
  rw [markRow_isTopDriver] at hdrv
  have hheat : (markRow topIds
      (mkDeltaRow (aTotalFloor resultA) cfg.mediumThr cfg.highThr a b)).heat =
      classifyHeat cfg.mediumThr cfg.highThr (|b.cost - a.cost| / aTotalFloor resultA) := by
    rw [markRow_heat, mkDeltaRow_heat, hdrv]
    simp
  rw [hheat, markRow_absFrac, mkDeltaRow_absFrac]
  set f := |b.cost - a.cost| / aTotalFloor resultA with hf
  simp only [classifyHeat]
  split_ifs with h1 h2
  · refine ⟨⟨fun _ => h1, fun _ => rfl⟩, ?_, ?_⟩
    · exact ⟨fun h => (nomatch h), fun hp => absurd h1 (not_le.2 hp.2)⟩
    · exact ⟨fun h => (nomatch h), fun hlt => absurd h1 (not_le.2 (lt_of_lt_of_le hlt hthr))⟩
  · refine ⟨⟨fun h => (nomatch h), fun h => absurd h h1⟩, ⟨fun _ => ⟨h2, not_le.1 h1⟩,
      fun _ => rfl⟩, ⟨fun h => (nomatch h), fun hlt => absurd h2 (not_le.2 hlt)⟩⟩
  · refine ⟨⟨fun h => (nomatch h), fun h => absurd h h1⟩,
      ⟨fun h => (nomatch h), fun hp => absurd hp.1 h2⟩, ⟨fun _ => not_le.1 h2, fun _ => rfl⟩⟩

/-- Claim C5: every report row's heat is the threshold classification, upgraded
from low to medium exactly when the row is a top driver with non-zero impact
fraction, and never downgraded. -/
theorem heat_upgrade_rule {catalog : List String} {cfg : DeltaConfig}
    {resultA resultB : ScenarioResult} {rep : DeltaReport} {r : DeltaRow}
    (hok : deltaCompare catalog cfg resultA resultB = Except.ok rep)
    (hr : r ∈ rep.rows) :
    r.heat = (if r.isTopDriver = true ∧
        classifyHeat cfg.mediumThr cfg.highThr r.absFracOfATotal = DeltaHeat.low ∧
        0 < r.absFracOfATotal then DeltaHeat.medium
      else classifyHeat cfg.mediumThr cfg.highThr r.absFracOfATotal) ∧
    heatRank (classifyHeat cfg.mediumThr cfg.highThr r.absFracOfATotal) ≤ heatRank r.heat := by
  obtain ⟨a, ha, b, hb, topIds, rfl⟩ := mem_rows_origin' hok hr
  have hmain : (markRow topIds
      (mkDeltaRow (aTotalFloor resultA) cfg.mediumThr cfg.highThr a b)).heat =
      (if (markRow topIds
            (mkDeltaRow (aTotalFloor resultA) cfg.mediumThr cfg.highThr a b)).isTopDriver =
            true ∧
          classifyHeat cfg.mediumThr cfg.highThr
            (markRow topIds
              (mkDeltaRow (aTotalFloor resultA) cfg.mediumThr cfg.highThr a b)).absFracOfATotal =
            DeltaHeat.low ∧
          0 < (markRow topIds
            (mkDeltaRow (aTotalFloor resultA) cfg.mediumThr cfg.highThr a b)).absFracOfATotal
        then DeltaHeat.medium
        else classifyHeat cfg.mediumThr cfg.highThr
          (markRow topIds
            (mkDeltaRow (aTotalFloor resultA) cfg.mediumThr cfg.highThr a b)).absFracOfATotal) := by
    rw [markRow_heat, markRow_isTopDriver, markRow_absFrac, mkDeltaRow_heat, mkDeltaRow_absFrac]
  refine ⟨hmain, ?_⟩
  rw [hmain, markRow_absFrac, mkDeltaRow_absFrac]
  split_ifs with hcond
  · rw [hcond.2.1]
    exact Nat.zero_le 1
  · exact le_refl _

/-- Claim C7: the delta comparison is antisymmetric in its two scenario results:
matching rows negate `deltaCost` and `deltaPct`, and `totalDelta` negates. -/
theorem deltaCompare_antisymm {catalog catalog' : List String} {cfg cfg' : DeltaConfig}
    {resultA resultB : ScenarioResult} {rep rep' : DeltaReport} {r r' : DeltaRow}
    (hA : (resultA.categories.map (fun a => a.categoryId)).Nodup)
    (hB : (resultB.categories.map (fun b => b.categoryId)).Nodup)
    (hab : deltaCompare catalog cfg resultA resultB = Except.ok rep)
    (hba : deltaCompare catalog' cfg' resultB resultA = Except.ok rep')
    (hr : r ∈ rep.rows) (hr' : r' ∈ rep'.rows) (hid : r.categoryId = r'.categoryId) :
    r.deltaCost = -r'.deltaCost ∧ r.deltaPct = -r'.deltaPct ∧
      rep.totalDelta = -rep'.totalDelta := by
  obtain ⟨a, ha, b, hfb, tI, rfl⟩ := mem_rows_origin' hab hr
  obtain ⟨b', hb', a', hfa', tI', rfl⟩ := mem_rows_origin' hba hr'
  have hidr : a.categoryId = b'.categoryId := hid
  have h1 : findCat b'.categoryId resultB.categories = some b' :=
    findCat_of_mem_of_nodup hB hb'
  rw [← hidr] at h1
  have hbb : b = b' := Option.some.inj (hfb.symm.trans h1)
  have h2 : findCat a.categoryId resultA.categories = some a :=
    findCat_of_mem_of_nodup hA ha
  rw [hidr] at h2
  have haa : a' = a := Option.some.inj (hfa'.symm.trans h2)
  subst hbb
  subst haa
  refine ⟨?_, ?_, ?_⟩
  · rw [markRow_deltaCost, markRow_deltaCost, mkDeltaRow_deltaCost, mkDeltaRow_deltaCost]
    ring
  · rw [markRow_deltaPct, markRow_deltaPct, mkDeltaRow_deltaPct, mkDeltaRow_deltaPct]
    ring
  · obtain ⟨base1, _, hrep1⟩ := deltaCompare_ok_inv hab
    obtain ⟨base2, _, hrep2⟩ := deltaCompare_ok_inv hba
    rw [hrep1, hrep2, mkReport_totalDelta, mkReport_totalDelta]
    ring

/-- Claim C8: when Scenario B lacks a category present in Scenario A, the delta
comparison raises an error naming a missing category instead of producing a
report. -/
theorem missing_category_error {catalog : List String} {cfg : DeltaConfig}
    {resultA resultB : ScenarioResult} {a : CategoryResult}
    (ha : a ∈ resultA.categories)
    (hmiss : ∀ b ∈ resultB.categories, b.categoryId ≠ a.categoryId) :
    ∃ c, deltaCompare catalog cfg resultA resultB =
        Except.error ("Missing category in Scenario B: " ++ c) ∧
      (∃ a' ∈ resultA.categories, a'.categoryId = c) ∧
      ∀ b ∈ resultB.categories, b.categoryId ≠ c := by
  have hf : findCat a.categoryId resultB.categories = none := findCat_eq_none_iff.2 hmiss
  obtain ⟨c, herr, hc, hcn⟩ :=
    @buildRows_error_of_missing resultB.categories (aTotalFloor resultA) cfg.mediumThr
      cfg.highThr resultA.categories a ha hf
  refine ⟨c, ?_, hc, findCat_eq_none_iff.1 hcn⟩
  rw [deltaCompare, herr]

/-! ### The evaluation error boundary (claim C9) -/

/-- A catalog entry: stable id and display label (spec section 3). -/
structure Category where
  id : String
  label : String
  deriving DecidableEq, Repr

/-- Errors raised by the scenario evaluator (spec section 7). -/
inductive VmxError where
  | validation (msg : String)
  | missingRate (categoryId : String) (band : HeatBand)
  deriving DecidableEq, Repr

/-- The human-readable message carried by an evaluator error (`e.message`). -/
def VmxError.message : VmxError → String
  | VmxError.validation msg => msg
  | VmxError.missingRate categoryId _ => "Missing rate for category: " ++ categoryId

/-- An opaque rate table with its currency (spec section 3): a partial map from
(categoryId, band) to a unit rate. -/
structure BenchmarkSet where
  currency : String
  rate : String → HeatBand → Option ℚ

/-- Modelled from the spec: the per-category evaluation loop of
`computeScenarioResult` (ScenarioEvaluator, spec section 4.1).  The function
itself lives in `src/domain/vmx-domain`, which is not among the provided
sources; this follows the spec's algorithm: for each catalog category take its
unique selection, look up the benchmark rate (`MissingRateError` if absent) and
produce cost `areaSqft * rate`; a missing or duplicated selection is a
`ValidationError`. -/
def evalCats (areaSqft : ℚ) (benchmark : BenchmarkSet)
    (selections : List ScenarioSelection) :
    List Category → Except VmxError (List (Category × ℚ))
  | [] => Except.ok []
  | c :: rest =>
    match selections.filter (fun s => decide (s.categoryId = c.id)) with
    | [sel] =>
      match benchmark.rate c.id sel.band with
      | none => Except.error (VmxError.missingRate c.id sel.band)
      | some rate =>
        match evalCats areaSqft benchmark selections rest with
        | Except.error e => Except.error e
        | Except.ok rest' => Except.ok ((c, areaSqft * rate) :: rest')
    | _ => Except.error (VmxError.validation ("Invalid selections for category: " ++ c.id))

/-- Modelled from the spec: `computeScenarioResult` (ScenarioEvaluator.evaluate,
spec section 4.1), imported by App.tsx from `src/domain/vmx-domain` which is not
among the provided sources.  Validates the area, evaluates every catalog
category, sums the total and computes `pctOfTotal` as `cost / totalCost` when
the total is positive and `0` otherwise. -/
def computeScenarioResult (catalog : List Category) (areaSqft : ℚ)
    (benchmark : BenchmarkSet) (selections : List ScenarioSelection) :
    Except VmxError ScenarioResult :=
  if 0 < areaSqft then
    match evalCats areaSqft benchmark selections catalog with
    | Except.error e => Except.error e
    | Except.ok costs =>
      Except.ok
        { totalCost := (costs.map (fun p => p.2)).sum
          currency := benchmark.currency
          categories := costs.map (fun p =>
            { categoryId := p.1.id
              label := p.1.label
              cost := p.2
              pctOfTotal :=
                if 0 < (costs.map (fun q => q.2)).sum then p.2 / (costs.map (fun q => q.2)).sum
                else 0 }) }
  else Except.error (VmxError.validation "Area must be positive")

/-- The evaluation error boundary `computeSafe` (App.tsx lines 111-126): wraps
the evaluator and converts a raised error into an explicit result/error pair. -/
def computeSafe (catalog : List Category) (areaSqft : ℚ) (benchmark : BenchmarkSet)
    (selections : List ScenarioSelection) : Option ScenarioResult × Option String :=
  match computeScenarioResult catalog areaSqft benchmark selections with
  | Except.ok result => (some result, none)
  | Except.error e => (none, some e.message)

/-- Claim C9: `computeSafe` yields exactly one of a result and an error message;
on success it returns the evaluator's complete result with a null error, and on
failure a null result with exactly the raised error's message. -/
theorem computeSafe_boundary (catalog : List Category) (areaSqft : ℚ)
    (benchmark : BenchmarkSet) (selections : List ScenarioSelection) :
    ((computeSafe catalog areaSqft benchmark selections).1 = none ↔
      (computeSafe catalog areaSqft benchmark selections).2 ≠ none) ∧
    (∀ res, computeScenarioResult catalog areaSqft benchmark selections = Except.ok res →
      computeSafe catalog areaSqft benchmark selections = (some res, none)) ∧
    (∀ e, computeScenarioResult catalog areaSqft benchmark selections = Except.error e →
      computeSafe catalog areaSqft benchmark selections = (none, some e.message)) := by
  cases h : computeScenarioResult catalog areaSqft benchmark selections with
  | ok res =>
    refine ⟨by simp [computeSafe, h], ?_, ?_⟩
    · intro res' he
      obtain rfl := Except.ok.inj he
      simp [computeSafe, h]
    · intro e he
      cases he
  | error e =>
    refine ⟨by simp [computeSafe, h], ?_, ?_⟩
    · intro res' he
      cases he
    · intro e' he
      obtain rfl := Except.error.inj he
      simp [computeSafe, h]

/-! ### Selection normalization (claim C10)

`normalizeSelections` (App.tsx lines 37-61) narrows an untrusted value read from
storage.  JS runtime values are modelled by `JsVal`; JS records
(`Record<VmxCategoryId, ScenarioSelection>`) by association lists whose update
`out[k] = v` replaces the value in place when the key exists and appends
otherwise.  A validated stored entry is kept; only its `categoryId` and `band`
fields are ever read downstream, so the kept entry is modelled by those two
fields. -/

/-- A JavaScript runtime value as far as the normalizer can observe it. -/
inductive JsVal where
  | vnull
  | vundef
  | vbool (b : Bool)
  | vnum (q : ℚ)
  | vstr (s : String)
  | varr (elems : List JsVal)
  | vobj (fields : List (String × JsVal))

/-- JS truthiness of a value. -/
def truthy : JsVal → Bool
  | JsVal.vnull => false
  | JsVal.vundef => false
  | JsVal.vbool b => b
  | JsVal.vnum q => decide (q ≠ 0)
  | JsVal.vstr s => decide (s ≠ "")
  | JsVal.varr _ => true
  | JsVal.vobj _ => true

/-- Whether `typeof v === "object"` (true for null, arrays and objects). -/
def typeofObject : JsVal → Bool
  | JsVal.vnull => true
  | JsVal.varr _ => true
  | JsVal.vobj _ => true
  | _ => false

/-- First binding of a key in an object's fields (JS objects have unique keys). -/
def objGet (k : String) : List (String × JsVal) → JsVal
  | [] => JsVal.vundef
  | f :: rest => if f.1 = k then f.2 else objGet k rest

/-- Property access `v[k]`: defined on objects, `undefined` on everything the
normalizer can reach (string keys on primitives and arrays). -/
def getProp (v : JsVal) (k : String) : JsVal :=
  match v with
  | JsVal.vobj fields => objGet k fields
  | _ => JsVal.vundef

/-- Strict equality of a value against a string literal (`v === "s"`). -/
def jsStrictEqStr (v : JsVal) (s : String) : Bool :=
  match v with
  | JsVal.vstr t => decide (t = s)
  | _ => false

/-- `maybe.band === "LOW" || maybe.band === "MEDIUM" || maybe.band === "HIGH"`
(App.tsx line 51). -/
def isBandStr (v : JsVal) : Bool :=
  jsStrictEqStr v "LOW" || jsStrictEqStr v "MEDIUM" || jsStrictEqStr v "HIGH"

/-- The band named by a validated band value. -/
def bandOfJs (v : JsVal) : HeatBand :=
  if jsStrictEqStr v "LOW" then HeatBand.LOW
  else if jsStrictEqStr v "HIGH" then HeatBand.HIGH
  else HeatBand.MEDIUM

/-- The stored-entry guard of App.tsx lines 47-53 for one category id. -/
def selValid (parsed : JsVal) (id : String) : Bool :=
  truthy (getProp parsed id) && typeofObject (getProp parsed id) &&
    isBandStr (getProp (getProp parsed id) "band") &&
    jsStrictEqStr (getProp (getProp parsed id) "categoryId") id

/-- JS record update `out[k] = v`: replace in place when the key exists, append
otherwise. -/
def recSet (l : List (String × ScenarioSelection)) (k : String) (v : ScenarioSelection) :
    List (String × ScenarioSelection) :=
  if l.any (fun p => decide (p.1 = k)) then
    l.map (fun p => if p.1 = k then (k, v) else p)
  else l ++ [(k, v)]

/-- JS record read `out[k]`. -/
def recGet (l : List (String × ScenarioSelection)) (k : String) : Option ScenarioSelection :=
  match l with
  | [] => none
  | p :: rest => if p.1 = k then some p.2 else recGet rest k

/-- `buildDefaultSelections` (App.tsx lines 31-35): one MEDIUM selection per
catalog category. -/
def buildDefaultSelections (catalog : List String) : List (String × ScenarioSelection) :=
  catalog.foldl (fun rec c => recSet rec c ⟨c, HeatBand.MEDIUM⟩) []

/-- One step of the normalization loop (App.tsx lines 46-56): keep the stored
entry when it passes the guard, otherwise leave the fallback entry. -/
def normStep (input : JsVal) (out : List (String × ScenarioSelection)) (c : String) :
    List (String × ScenarioSelection) :=
  if selValid input c = true then
    recSet out c ⟨c, bandOfJs (getProp (getProp input c) "band")⟩
  else out

/-- `normalizeSelections` (App.tsx lines 37-61). -/
def normalizeSelections (catalog : List String) (input : JsVal)
    (fallback : List (String × ScenarioSelection)) : List (String × ScenarioSelection) :=
  if truthy input && typeofObject input then catalog.foldl (normStep input) fallback
  else fallback

theorem recGet_map_update {k : String} {v : ScenarioSelection} :
    ∀ l : List (String × ScenarioSelection),
      recGet (l.map (fun p => if p.1 = k then (k, v) else p)) k =
        if l.any (fun p => decide (p.1 = k)) then some v else none := by
  intro l
  induction l with
  | nil => simp [recGet]
  | cons p rest ih =>
    by_cases hp : p.1 = k
    · simp [recGet, hp, List.any_cons]
    · simp only [List.map_cons, if_neg hp, recGet, ih, List.any_cons]
      simp only [decide_eq_false hp, Bool.false_or]

theorem recGet_append_single {k : String} {v : ScenarioSelection} :
    ∀ l : List (String × ScenarioSelection), (∀ p ∈ l, p.1 ≠ k) →
      recGet (l ++ [(k, v)]) k = some v := by
  intro l
  induction l with
  | nil => simp [recGet]
  | cons p rest ih =>
    intro hl
    rw [List.cons_append, recGet, if_neg (hl p (List.mem_cons_self p rest))]
    exact ih (fun q hq => hl q (List.mem_cons_of_mem p hq))

theorem recGet_recSet_self {l : List (String × ScenarioSelection)} {k : String}
    {v : ScenarioSelection} : recGet (recSet l k v) k = some v := by
  by_cases hany : l.any (fun p => decide (p.1 = k)) = true
  · rw [recSet, if_pos hany, recGet_map_update, if_pos hany]
  · rw [recSet, if_neg hany]
    refine recGet_append_single l ?_
    intro p hp hpk
    exact hany (List.any_eq_true.2 ⟨p, hp, decide_eq_true hpk⟩)

theorem recGet_recSet_ne {l : List (String × ScenarioSelection)} {k k' : String}
    {v : ScenarioSelection} (hne : k' ≠ k) : recGet (recSet l k v) k' = recGet l k' := by
  by_cases hany : l.any (fun p => decide (p.1 = k)) = true
  · rw [recSet, if_pos hany]
    clear hany
    induction l with
    | nil => simp [recGet]
    | cons p rest ih =>
      by_cases hp : p.1 = k
      · have h1 : ¬(k = k') := fun h => hne h.symm
        rw [List.map_cons, if_pos hp, recGet, recGet, if_neg h1, if_neg (by rw [hp]; exact h1)]
        exact ih
      · rw [List.map_cons, if_neg hp, recGet, recGet]
        by_cases hp' : p.1 = k'
        · rw [if_pos hp', if_pos hp']
        · rw [if_neg hp', if_neg hp']
          exact ih
  · rw [recSet, if_neg hany]
    clear hany
    induction l with
    | nil =>
      show recGet [(k, v)] k' = recGet [] k'
      simp only [recGet]
      rw [if_neg (fun h => hne h.symm)]
    | cons p rest ih =>
      rw [List.cons_append, recGet, recGet]
      by_cases hp' : p.1 = k'
      · rw [if_pos hp', if_pos hp']
      · rw [if_neg hp', if_neg hp']
        exact ih

theorem recSet_keys_of_mem {l : List (String × ScenarioSelection)} {k : String}
    {v : ScenarioSelection} (hk : k ∈ l.map Prod.fst) :
    (recSet l k v).map Prod.fst = l.map Prod.fst := by
  have hany : l.any (fun p => decide (p.1 = k)) = true := by
    obtain ⟨p, hp, hpk⟩ := List.mem_map.1 hk
    exact List.any_eq_true.2 ⟨p, hp, decide_eq_true hpk⟩
  rw [recSet, if_pos hany, List.map_map]
  have hfun : (Prod.fst ∘ fun p : String × ScenarioSelection =>
      if p.1 = k then (k, v) else p) = Prod.fst := by
    funext p
    show (if p.1 = k then ((k, v) : String × ScenarioSelection) else p).1 = p.1
    split_ifs with h
    · exact h.symm
    · rfl
  rw [hfun]

theorem buildDefault_go :
    ∀ (cats : List String) (acc : List (String × ScenarioSelection)), cats.Nodup →
      (∀ c ∈ cats, ∀ p ∈ acc, p.1 ≠ c) →
      cats.foldl (fun rec c => recSet rec c ⟨c, HeatBand.MEDIUM⟩) acc =
        acc ++ cats.map (fun c => (c, ⟨c, HeatBand.MEDIUM⟩)) := by
  intro cats
  induction cats with
  | nil =>
    intro acc _ _
    simp
  | cons c rest ih =>
    intro acc hnd hdisj
    rw [List.foldl_cons]
    have hset : recSet acc c ⟨c, HeatBand.MEDIUM⟩ = acc ++ [(c, ⟨c, HeatBand.MEDIUM⟩)] := by
      rw [recSet, if_neg]
      intro hany
      obtain ⟨p, hp, hpk⟩ := List.any_eq_true.1 hany
      exact hdisj c (List.mem_cons_self c rest) p hp (of_decide_eq_true hpk)
    have hdisj2 : ∀ c' ∈ rest, ∀ p ∈ acc ++ [(c, ⟨c, HeatBand.MEDIUM⟩)], p.1 ≠ c' := by
      intro c' hc' p hp
      rcases List.mem_append.1 hp with hpa | hpc
      · exact hdisj c' (List.mem_cons_of_mem c hc') p hpa
      · have hpe : p = ((c, ⟨c, HeatBand.MEDIUM⟩) : String × ScenarioSelection) := by
          simpa using hpc
        rw [hpe]
        intro hh
        have hcc : c = c' := hh
        exact (List.nodup_cons.1 hnd).1 (hcc ▸ hc')
    rw [hset, ih (acc ++ [((c, ⟨c, HeatBand.MEDIUM⟩) : String × ScenarioSelection)])
      (List.nodup_cons.1 hnd).2 hdisj2]
    simp

theorem buildDefaultSelections_eq (catalog : List String) (hnd : catalog.Nodup) :
    buildDefaultSelections catalog =
      catalog.map (fun c => (c, ⟨c, HeatBand.MEDIUM⟩)) := by
  have h := buildDefault_go catalog [] hnd (by intro c _ p hp; exact absurd hp (List.not_mem_nil p))
  simpa [buildDefaultSelections] using h

theorem recGet_map_default :
    ∀ (l : List String) (c : String), c ∈ l →
      recGet (l.map (fun c => (c, (⟨c, HeatBand.MEDIUM⟩ : ScenarioSelection)))) c =
        some ⟨c, HeatBand.MEDIUM⟩ := by
  intro l
  induction l with
  | nil =>
    intro c hc
    exact absurd hc (List.not_mem_nil c)
  | cons d rest ih =>
    intro c hc
    by_cases hd : d = c
    · subst hd
      rw [List.map_cons, recGet, if_pos rfl]
    · rcases List.mem_cons.1 hc with rfl | hc'
      · exact absurd rfl hd
      · rw [List.map_cons, recGet, if_neg hd]
        exact ih c hc'

theorem norm_fold (input : JsVal) :
    ∀ (cats : List String) (out : List (String × ScenarioSelection)), cats.Nodup →
      (∀ c ∈ cats, c ∈ out.map Prod.fst) →
      ((cats.foldl (normStep input) out).map Prod.fst = out.map Prod.fst) ∧
      (∀ c ∈ cats, recGet (cats.foldl (normStep input) out) c =
        (if selValid input c = true then
          some ⟨c, bandOfJs (getProp (getProp input c) "band")⟩
        else recGet out c)) ∧
      (∀ c, c ∉ cats → recGet (cats.foldl (normStep input) out) c = recGet out c) := by
  intro cats
  induction cats with
  | nil =>
    intro out _ _
    exact ⟨rfl, by simp, fun c _ => rfl⟩
  | cons c rest ih =>
    intro out hnd hkeys
    rw [List.foldl_cons]
    have hkeys' : (normStep input out c).map Prod.fst = out.map Prod.fst := by
      rw [normStep]
      split_ifs with hv
      · exact recSet_keys_of_mem (hkeys c (List.mem_cons_self c rest))
      · rfl
    have hrest_keys : ∀ c' ∈ rest, c' ∈ (normStep input out c).map Prod.fst := by
      rw [hkeys']
      intro c' hc'
      exact hkeys c' (List.mem_cons_of_mem c hc')
    obtain ⟨ihkeys, ihmem, ihnot⟩ := ih (normStep input out c) (List.nodup_cons.1 hnd).2
      hrest_keys
    refine ⟨by rw [ihkeys, hkeys'], ?_, ?_⟩
    · intro c' hc'
      rcases List.mem_cons.1 hc' with rfl | hc''
      · rw [ihnot c' (List.nodup_cons.1 hnd).1, normStep]
        split_ifs with hv
        · exact recGet_recSet_self
        · rfl
      · have hne : c' ≠ c := fun h => (List.nodup_cons.1 hnd).1 (h ▸ hc'')
        rw [ihmem c' hc'']
        have hget : recGet (normStep input out c) c' = recGet out c' := by
          rw [normStep]
          split_ifs with hv
          · exact recGet_recSet_ne hne
          · rfl
        rw [hget]
    · intro c' hc'
      have hc'' : c' ∉ rest := fun h => hc' (List.mem_cons_of_mem c h)
      have hne : c' ≠ c := fun h => hc' (h ▸ List.mem_cons_self c rest)
      rw [ihnot c' hc'', normStep]
      split_ifs with hv
      · exact recGet_recSet_ne hne
      · rfl

theorem selValid_of_not_object {input : JsVal}
    (h : (truthy input && typeofObject input) = false) (c : String) :
    selValid input c = false := by
  cases input with
  | vnull => simp [selValid, getProp, truthy]
  | vundef => simp [selValid, getProp, truthy]
  | vbool b => simp [selValid, getProp, truthy]
  | vnum q => simp [selValid, getProp, truthy]
  | vstr s => simp [selValid, getProp, truthy]
  | varr l => simp [truthy, typeofObject] at h
  | vobj l => simp [truthy, typeofObject] at h

/-- Claim C10: for every input value, normalizing over the default fallback
yields a record whose keys are exactly the catalog (one selection per category,
nothing else); each category's entry is the stored one exactly when the stored
entry passes the guard (truthy object with band LOW/MEDIUM/HIGH and a matching
categoryId), and the fallback's MEDIUM default otherwise. -/
theorem normalizeSelections_complete (catalog : List String) (hnd : catalog.Nodup)
    (input : JsVal) :
    (normalizeSelections catalog input (buildDefaultSelections catalog)).map Prod.fst =
      catalog ∧
    ∀ c ∈ catalog,
      recGet (normalizeSelections catalog input (buildDefaultSelections catalog)) c =
        some (if selValid input c = true then
          ⟨c, bandOfJs (getProp (getProp input c) "band")⟩
        else ⟨c, HeatBand.MEDIUM⟩) := by
  have hfb := buildDefaultSelections_eq catalog hnd
  have hfbkeys : (buildDefaultSelections catalog).map Prod.fst = catalog := by
    rw [hfb, List.map_map]
    have hfun : (Prod.fst ∘ fun c =>
        ((c, ⟨c, HeatBand.MEDIUM⟩) : String × ScenarioSelection)) = id := rfl
    rw [hfun, List.map_id]
  by_cases htop : (truthy input && typeofObject input) = true
  · rw [normalizeSelections, if_pos htop]
    obtain ⟨hkeys, hmem, _⟩ := norm_fold input catalog (buildDefaultSelections catalog) hnd
      (by rw [hfbkeys]; exact fun c hc => hc)
    refine ⟨by rw [hkeys, hfbkeys], ?_⟩
    intro c hc
    rw [hmem c hc]
    split_ifs with hv
    · rfl
    · rw [hfb, recGet_map_default catalog c hc]
  · have htop' : (truthy input && typeofObject input) = false := by
      revert htop
      cases truthy input && typeofObject input
      · intro _
        rfl
      · intro hcontra
        exact absurd rfl hcontra
    rw [normalizeSelections, if_neg htop]
    refine ⟨hfbkeys, ?_⟩
    intro c hc
    rw [if_neg (by rw [selValid_of_not_object htop' c]; exact Bool.false_ne_true)]
    rw [hfb, recGet_map_default catalog c hc]

/-! ### Concrete data: the spec's worked example and witnesses -/

/-- The default comparison configuration (thresholds 1.5% and 3%). -/
def wCfg : DeltaConfig := ⟨3/200, 3/100, DeltaSortMode.impact, false⟩

def exA : ScenarioResult :=
  ⟨1700, "USD", [⟨"X", "X", 500, 5/17⟩, ⟨"Y", "Y", 1000, 10/17⟩, ⟨"Z", "Z", 200, 2/17⟩]⟩

def exB : ScenarioResult :=
  ⟨1700, "USD", [⟨"X", "X", 600, 6/17⟩, ⟨"Y", "Y", 900, 9/17⟩, ⟨"Z", "Z", 200, 2/17⟩]⟩

def exRowX : DeltaRow :=
  ⟨"X", "X", 100, 1/17, 1/17, DeltaDirection.increase, DeltaHeat.high, true⟩

def exRowY : DeltaRow :=
  ⟨"Y", "Y", -100, -(1/17), 1/17, DeltaDirection.decrease, DeltaHeat.high, true⟩

def exRowZ : DeltaRow :=
  ⟨"Z", "Z", 0, 0, 0, DeltaDirection.flat, DeltaHeat.low, false⟩

def exRep : DeltaReport :=
  ⟨0, [exRowX, exRowY, exRowZ], [exRowX], [exRowY], "USD", 1700, 1700⟩

theorem exRep_ok : deltaCompare ["X", "Y", "Z"] wCfg exA exB = Except.ok exRep := by
  simp [deltaCompare, buildRows, findCat, mkReport, topIdsOf, markRow, sortRows, mkDeltaRow,
    aTotalFloor, classifyHeat, directionOf, absDescR, catOrdR, deltaDescR, deltaAscR,
    wCfg, exA, exB, exRep, exRowX, exRowY, exRowZ,
    List.insertionSort, List.orderedInsert, List.filter]
  try norm_num
  try decide

def exRowXr : DeltaRow :=
  ⟨"X", "X", -100, -(1/17), 1/17, DeltaDirection.decrease, DeltaHeat.high, true⟩

def exRowYr : DeltaRow :=
  ⟨"Y", "Y", 100, 1/17, 1/17, DeltaDirection.increase, DeltaHeat.high, true⟩

def exRepR : DeltaReport :=
  ⟨0, [exRowXr, exRowYr, exRowZ], [exRowYr], [exRowXr], "USD", 1700, 1700⟩

theorem exRepR_ok : deltaCompare ["X", "Y", "Z"] wCfg exB exA = Except.ok exRepR := by
  simp [deltaCompare, buildRows, findCat, mkReport, topIdsOf, markRow, sortRows, mkDeltaRow,
    aTotalFloor, classifyHeat, directionOf, absDescR, catOrdR, deltaDescR, deltaAscR,
    wCfg, exA, exB, exRepR, exRowXr, exRowYr, exRowZ,
    List.insertionSort, List.orderedInsert, List.filter]
  try norm_num
  try decide

def exBaseX : DeltaRow :=
  ⟨"X", "X", 100, 1/17, 1/17, DeltaDirection.increase, DeltaHeat.high, false⟩

def exBaseY : DeltaRow :=
  ⟨"Y", "Y", -100, -(1/17), 1/17, DeltaDirection.decrease, DeltaHeat.high, false⟩

theorem exBase_ok :
    buildRows exB.categories (aTotalFloor exA) wCfg.mediumThr wCfg.highThr exA.categories =
      Except.ok [exBaseX, exBaseY, exRowZ] := by
  simp [buildRows, findCat, mkDeltaRow, aTotalFloor, classifyHeat, directionOf,
    wCfg, exA, exB, exBaseX, exBaseY, exRowZ]
  try norm_num
  try decide

/-! ### Counterexamples to claims C1 and C2 as stated -/

def c2A : ScenarioResult := ⟨1/2, "USD", [⟨"X", "X", 1/2, 1⟩]⟩

def c2B : ScenarioResult := ⟨3/2, "USD", [⟨"X", "X", 3/2, 1⟩]⟩

/-- Claim C2 as stated is false: with `resultA.totalCost = 1/2` (less than 1 but
positive) the code divides by `1/2`, giving impact fraction 2 for a delta of 1,
while the claimed formula `|deltaCost| / max(totalA, 1)` gives 1. -/
theorem impactFraction_claim_counterexample :
    (rowsOf (deltaCompare ["X"] wCfg c2A c2B)).map
        (fun r => (r.deltaCost, r.absFracOfATotal)) = [(1, 2)] ∧
      ¬((2 : ℚ) = |(1 : ℚ)| / max ((1 : ℚ)/2) 1) := by
  constructor
  · simp [rowsOf, deltaCompare, buildRows, findCat, mkReport, topIdsOf, markRow, sortRows,
      mkDeltaRow, aTotalFloor, classifyHeat, directionOf, absDescR, catOrdR, wCfg, c2A, c2B,
      List.insertionSort, List.orderedInsert, List.filter]
    try norm_num
    try decide
  · norm_num

def c1A : ScenarioResult :=
  ⟨40, "USD", [⟨"a", "a", 10, 1/4⟩, ⟨"b", "b", 10, 1/4⟩, ⟨"c", "c", 10, 1/4⟩,
    ⟨"d", "d", 10, 1/4⟩]⟩

def c1B : ScenarioResult :=
  ⟨20, "USD", [⟨"a", "a", 0, 0⟩, ⟨"b", "b", 2, 1/10⟩, ⟨"c", "c", 4, 1/5⟩,
    ⟨"d", "d", 14, 7/10⟩]⟩

/-- Same configuration as `wCfg` but with the drivers-only filter enabled. -/
def c1CfgDrv : DeltaConfig := ⟨3/200, 3/100, DeltaSortMode.impact, true⟩

/-- Claim C1 as stated is false: with deltas (-10, -8, -6, +4), the +4 category
is not a driver, so with `driversOnly = true` the `topIncreases` summary is
empty while the full row set has an increase row -- the summaries are computed
from the filtered rows, not the full set, hence they depend on `driversOnly`. -/
theorem summary_lists_claim_counterexample :
    increasesOf (deltaCompare ["a", "b", "c", "d"] c1CfgDrv c1A c1B) = [] ∧
      (increasesOf (deltaCompare ["a", "b", "c", "d"] wCfg c1A c1B)).map
        (fun r => r.deltaCost) = [4] := by
  constructor
  · simp [increasesOf, deltaCompare, buildRows, findCat, mkReport, topIdsOf, markRow, sortRows,
      mkDeltaRow, aTotalFloor, classifyHeat, directionOf, absDescR, catOrdR, deltaDescR,
      c1CfgDrv, c1A, c1B, List.insertionSort, List.orderedInsert, List.filter]
    try norm_num
    try decide
  · simp [increasesOf, deltaCompare, buildRows, findCat, mkReport, topIdsOf, markRow, sortRows,
      mkDeltaRow, aTotalFloor, classifyHeat, directionOf, absDescR, catOrdR, deltaDescR,
      wCfg, c1A, c1B, List.insertionSort, List.orderedInsert, List.filter]
    try norm_num
    try decide

/-! ### Witnesses -/

theorem summary_lists_witness :
    exRep.increases.length ≤ 3 ∧ exRep.increases.Pairwise deltaDescR :=
  ⟨(summary_lists exRep_ok).2.1, (summary_lists exRep_ok).2.2.1⟩

theorem impactFraction_floor_witness :
    exRowX.absFracOfATotal =
      |exRowX.deltaCost| / (if 0 < exA.totalCost then exA.totalCost else 1) :=
  impactFraction_floor exRep_ok (by simp [exRep])

theorem heat_thresholds_witness :
    exRowZ.heat = DeltaHeat.low ↔ exRowZ.absFracOfATotal < wCfg.mediumThr :=
  (heat_thresholds_of_not_driver (by norm_num [wCfg]) (by norm_num [wCfg]) exRep_ok
    (by simp [exRep]) rfl).2.2

theorem driver_selection_witness :
    (exRep.rows.filter (fun r => r.isTopDriver)).length ≤ 3 ∧
      (∀ r ∈ exRep.rows, r.deltaCost = 0 → r.isTopDriver = false) :=
  ⟨(driver_selection exRep_ok exBase_ok rfl (by decide)).1,
    (driver_selection exRep_ok exBase_ok rfl (by decide)).2.1⟩

theorem heat_upgrade_witness :
    heatRank (classifyHeat wCfg.mediumThr wCfg.highThr exRowX.absFracOfATotal) ≤
      heatRank exRowX.heat :=
  (heat_upgrade_rule exRep_ok (by simp [exRep])).2

theorem sort_mode_witness : exRep.rows.Pairwise (beats ["X", "Y", "Z"]) :=
  (sort_mode_ordering exRep_ok rfl (by decide)).1 rfl

theorem antisymm_witness :
    exRowX.deltaCost = -exRowXr.deltaCost ∧ exRowX.deltaPct = -exRowXr.deltaPct ∧
      exRep.totalDelta = -exRepR.totalDelta :=
  deltaCompare_antisymm (by decide) (by decide) exRep_ok exRepR_ok
    (by simp [exRep]) (by simp [exRepR]) rfl

def w8A : ScenarioResult := ⟨10, "USD", [⟨"X", "X", 10, 1⟩]⟩

def w8B : ScenarioResult := ⟨0, "USD", []⟩

theorem missing_category_witness :
    ∃ c, deltaCompare ["X"] wCfg w8A w8B =
        Except.error ("Missing category in Scenario B: " ++ c) ∧
      (∃ a' ∈ w8A.categories, a'.categoryId = c) ∧
      ∀ b ∈ w8B.categories, b.categoryId ≠ c :=
  @missing_category_error ["X"] wCfg w8A w8B ⟨"X", "X", 10, 1⟩ (by simp [w8A])
    (by simp [w8B])

def w9Cat : List Category := [⟨"X", "X"⟩]

def w9Bench : BenchmarkSet := ⟨"USD", fun _ _ => some 5⟩

def w9Sels : List ScenarioSelection := [⟨"X", HeatBand.MEDIUM⟩]

theorem w9_ok :
    computeScenarioResult w9Cat 1 w9Bench w9Sels =
      Except.ok ⟨5, "USD", [⟨"X", "X", 5, 1⟩]⟩ := by
  simp [computeScenarioResult, evalCats, w9Cat, w9Bench, w9Sels, List.filter]
  try norm_num

theorem computeSafe_witness :
    computeSafe w9Cat 1 w9Bench w9Sels =
      (some ⟨5, "USD", [⟨"X", "X", 5, 1⟩]⟩, none) :=
  (computeSafe_boundary w9Cat 1 w9Bench w9Sels).2.1 _ w9_ok

def w10input : JsVal :=
  JsVal.vobj [("a", JsVal.vobj [("categoryId", JsVal.vstr "a"), ("band", JsVal.vstr "LOW")]),
    ("b", JsVal.vnum 7)]

theorem normalizeSelections_witness :
    (normalizeSelections ["a", "b"] w10input (buildDefaultSelections ["a", "b"])).map
      Prod.fst = ["a", "b"] :=
  (normalizeSelections_complete ["a", "b"] (by decide) w10input).1

end VMX
